import Mathlib

/-!
Verification development for the `unseal` secrets tool (`src/unseal.go`).

The Go program is shallowly embedded: Go strings become explicit character
lists (`GoStr`), the Go map `map[string]string` becomes an association list
with insert-or-replace semantics, the filesystem becomes an association
list from paths to file data (content and permission mode), and every
external effect (gpg, the editor, rename/read/write outcomes, random
bytes) becomes an explicit oracle argument.  Each embedded definition is
annotated with the source lines of `src/unseal.go` it models.
-/

set_option maxHeartbeats 1000000

namespace Unseal

/-- Go strings are modelled as explicit character lists. -/
abbrev GoStr := List Char

/-- Association-list lookup; models reading `m[k]` from a Go map. -/
def lookupKey {α β : Type} [DecidableEq α] : List (α × β) → α → Option β
  | [], _ => none
  | e :: m, k => if e.1 = k then some e.2 else lookupKey m k

/-- Association-list insert-or-replace; models the Go map assignment `m[k] = v`. -/
def mapInsert {α β : Type} [DecidableEq α] : List (α × β) → α → β → List (α × β)
  | [], k, v => [(k, v)]
  | e :: m, k, v => if e.1 = k then (k, v) :: m else e :: mapInsert m k v

/-- `mapInsert` taking the key/value as one pair, for folding. -/
def insertPair {α β : Type} [DecidableEq α] (m : List (α × β)) (e : α × β) : List (α × β) :=
  mapInsert m e.1 e.2

/-- Number of entries of the association list whose key is `k`. -/
def countKey {α β : Type} [DecidableEq α] : List (α × β) → α → Nat
  | [], _ => 0
  | e :: m, k => (if e.1 = k then 1 else 0) + countKey m k

/-- Remove every entry whose key is `k`. -/
def eraseKey {α β : Type} [DecidableEq α] : List (α × β) → α → List (α × β)
  | [], _ => []
  | e :: m, k => if e.1 = k then eraseKey m k else e :: eraseKey m k

/-- Value of the last pair of the list whose key is `k`. -/
def lastVal {α β : Type} [DecidableEq α] : List (α × β) → α → Option β
  | [], _ => none
  | e :: m, k =>
    match lastVal m k with
    | some v => some v
    | none => if e.1 = k then some e.2 else none

/-- Left-biased choice on options. -/
def orO {β : Type} : Option β → Option β → Option β
  | some v, _ => some v
  | none, b => b

/-- Models `strings.ReplaceAll(raw, "\r\n", "\n")` (src/unseal.go:273):
replace non-overlapping occurrences left to right. -/
def replaceCRLF : GoStr → GoStr
  | [] => []
  | [c] => [c]
  | c :: d :: rest =>
    if c = '\r' ∧ d = '\n' then '\n' :: replaceCRLF rest
    else c :: replaceCRLF (d :: rest)

/-- Models `strings.Split(s, "\n")` (src/unseal.go:273). -/
def splitNewline : GoStr → List GoStr
  | [] => [[]]
  | c :: rest =>
    if c = '\n' then [] :: splitNewline rest
    else
      match splitNewline rest with
      | [] => [[c]]
      | l :: ls => (c :: l) :: ls

/-- Models `strings.SplitN(v, "=", 2)` (src/unseal.go:278): returns
`some (k, w)` when the split has two parts (`v` contains `=`, `k` is the
part before the first `=`, `w` everything after it), and `none` when the
split has a single part (`v` contains no `=`). -/
def splitFirstEq : GoStr → Option (GoStr × GoStr)
  | [] => none
  | c :: rest =>
    if c = '=' then some ([], rest)
    else
      match splitFirstEq rest with
      | some kv => some (c :: kv.1, kv.2)
      | none => none

/-- One iteration of the parse loop body (src/unseal.go:273-282): skip the
blank line, otherwise split on the first `=` and assign into the map when
the split has two parts. -/
def parseStep (m : List (GoStr × GoStr)) (v : GoStr) : List (GoStr × GoStr) :=
  if v = [] then m
  else
    match splitFirstEq v with
    | some kv => mapInsert m kv.1 kv.2
    | none => m

/-- Models `parseEnvironment` (src/unseal.go:270-285). -/
def parseEnvironment (raw : GoStr) : List (GoStr × GoStr) :=
  (splitNewline (replaceCRLF raw)).foldl parseStep []

/-- The `KEY=VALUE` entry contributed by one line of the parse loop, if any. -/
def lineEntry (v : GoStr) : Option (GoStr × GoStr) :=
  if v = [] then none else splitFirstEq v

/-- All key/value entries the parse loop inserts, in line order. -/
def envEntries (raw : GoStr) : List (GoStr × GoStr) :=
  (splitNewline (replaceCRLF raw)).filterMap lineEntry

/-- On-disk file: its byte content and its permission mode (an octal Nat). -/
structure FileData where
  content : String
  fmode : Nat
deriving DecidableEq

/-- The filesystem: an association list from paths to file data. -/
abbrev FS := List (String × FileData)

def fsGet (fs : FS) (p : String) : Option FileData := lookupKey fs p

def fsSet (fs : FS) (p : String) (d : FileData) : FS := mapInsert fs p d

def fsDel (fs : FS) (p : String) : FS := eraseKey fs p

/-- Models `fileExists` (src/unseal.go:87-94): any `Lstat` error counts as
not existing. -/
def fileExists (fs : FS) (p : String) : Bool := (fsGet fs p).isSome

/-- Models `os.Remove`: fails (returns `false`) iff the path is absent. -/
def osRemove (fs : FS) (p : String) : FS × Bool :=
  if fileExists fs p then (fsDel fs p, true) else (fs, false)

/-- The `mode` constant, `0600` (src/unseal.go:23). -/
def ownerOnlyMode : Nat := 0o600

/-- Models `secretsFile` resolution (src/unseal.go:32):
`fmt.Sprintf("%s/.secrets/%s.gpg", os.Getenv("HOME"), group)`. -/
def secretsPath (home group : String) : String :=
  home ++ "/.secrets/" ++ group ++ ".gpg"

/-- Go `unicode.IsSpace` restricted to the ASCII whitespace characters,
enough for `strings.TrimSpace` on the texts considered here. -/
def isSpaceChar (c : Char) : Bool :=
  c = ' ' || c = '\t' || c = '\n' || c = '\r' || c = Char.ofNat 11 || c = Char.ofNat 12

/-- Models `strings.TrimSpace` (src/unseal.go:142). -/
def trimSpace (s : GoStr) : GoStr :=
  ((s.dropWhile isSpaceChar).reverse.dropWhile isSpaceChar).reverse

def trimSpaceS (s : String) : String := String.mk (trimSpace s.data)

inductive EnsureResult
  | ok
  | groupRequired
  | storeNotFound
deriving DecidableEq

/-- Models `ensureSecrets`/`ensureGroup` (src/unseal.go:115-129): an empty
group aborts first; then a missing store file aborts, telling the user to
create it with the edit command. -/
def ensureSecrets (group home : String) (fs : FS) : EnsureResult :=
  if group = "" then EnsureResult.groupRequired
  else if fileExists fs (secretsPath home group) then EnsureResult.ok
  else EnsureResult.storeNotFound

/-- Models `decryptFile` (src/unseal.go:131-143).  `gpgOut` is the oracle
for the external `gpg -d` call: `none` when gpg fails (the Go code then
exits), `some out` its captured standard output.  An absent store yields
the empty string without running gpg; otherwise the gpg output is
whitespace-trimmed. -/
def decryptFile (fs : FS) (path : String) (gpgOut : Option String) : Option String :=
  if fileExists fs path = false then some ""
  else
    match gpgOut with
    | none => none
    | some out => some (trimSpaceS out)

/-- The lowercase hex digit table of Go `encoding/hex`. -/
def hextable : GoStr := "0123456789abcdef".data

/-- Hex encoding of one byte: high nibble digit then low nibble digit. -/
def hexByte (b : Nat) : GoStr :=
  [hextable.getD (b / 16) '0', hextable.getD (b % 16) '0']

def hexEncode : List Nat → GoStr
  | [] => []
  | b :: rest => hexByte b ++ hexEncode rest

/-- Models `randChars` (src/unseal.go:287-296): the four random bytes read
from `crypto/rand` become the explicit argument `buf`, and the result is
their lowercase hex encoding. -/
def randChars (buf : List Nat) : String := String.mk (hexEncode buf)

/-- The ephemeral plaintext path (src/unseal.go:212):
`filepath.Join(os.TempDir(), "unseal."+randChars())`. -/
def tmpFileName (tmpDir : String) (buf : List Nat) : String :=
  tmpDir ++ "/unseal." ++ randChars buf

/-- Models `os.Create` (src/unseal.go:214): create-or-truncate.  A fresh
file gets the creation mode (0666 masked by the umask, the oracle argument
`initMode`); an existing file is truncated to empty, keeping its mode. -/
def osCreate (fs : FS) (p : String) (initMode : Nat) : FS :=
  match fsGet fs p with
  | some d => fsSet fs p ⟨"", d.fmode⟩
  | none => fsSet fs p ⟨"", initMode⟩

/-- Models `f.Chmod` on an open file: set the mode, keep the content. -/
def fsSetMode (fs : FS) (p : String) (m : Nat) : FS :=
  match fsGet fs p with
  | some d => fsSet fs p ⟨d.content, m⟩
  | none => fs

/-- Models writing through an open handle: set the content, keep the mode. -/
def fsSetContent (fs : FS) (p : String) (c : String) : FS :=
  match fsGet fs p with
  | some d => fsSet fs p ⟨c, d.fmode⟩
  | none => fs

structure TmpOut where
  fs : FS
  path : String
  ok : Bool
deriving DecidableEq

/-- Models `writeTmpFile` (src/unseal.go:211-232): create the file at
`TempDir/unseal.<hex>`, chmod it to 0600, write the contents.  The oracle
booleans decide whether each step's error branch is taken; note that on
the chmod/write failure branches the Go code closes the file but leaves it
on disk. -/
def writeTmpFile (fs : FS) (tmpDir : String) (buf : List Nat) (contents : String)
    (createOk chmodOk writeOk : Bool) (initMode : Nat) : TmpOut :=
  let tmpFile := tmpFileName tmpDir buf
  if createOk = false then ⟨fs, tmpFile, false⟩
  else
    let fs1 := osCreate fs tmpFile initMode
    if chmodOk = false then ⟨fs1, tmpFile, false⟩
    else
      let fs2 := fsSetMode fs1 tmpFile ownerOnlyMode
      if writeOk = false then ⟨fs2, tmpFile, false⟩
      else ⟨fsSetContent fs2 tmpFile contents, tmpFile, true⟩

/-- Models `ioutil.WriteFile(p, c, mode)` succeeding (src/unseal.go:252):
replace the content; the 0600 permission applies only when the file is
created. -/
def fsWriteFile (fs : FS) (p : String) (c : String) : FS :=
  match fsGet fs p with
  | some d => fsSet fs p ⟨c, d.fmode⟩
  | none => fsSet fs p ⟨c, ownerOnlyMode⟩

structure CopyOut where
  fs : FS
  ok : Bool
  removed : List String
deriving DecidableEq

/-- Models a best-effort `_ = os.Remove(p)` whose error is discarded
(src/unseal.go:254 and 256): the oracle `removeOk` decides whether the
removal takes effect; on failure the filesystem is left as it is. -/
def osRemoveBestEffort (fs : FS) (p : String) (removeOk : Bool) : FS :=
  if removeOk then (osRemove fs p).1 else fs

/-- Models the state of the destination after a FAILED
`ioutil.WriteFile(newpath, ..., mode)`: `WriteFile` opens with `O_TRUNC`,
so the oracle `leftover` is `none` when the open itself failed (the
destination is untouched) and `some c` when the open truncated the file
and the failing write left the bytes `c` behind (empty or a partial
prefix of the new content). -/
def fsWriteFileFailed (fs : FS) (p : String) (leftover : Option String) : FS :=
  match leftover with
  | none => fs
  | some c => fsWriteFile fs p c

/-- Models `copyFile` (src/unseal.go:244-262).  Preferred path: rename
(atomic move, oracle `renameOk`; a missing source makes it fail).
Fallback: read the source (oracle `readOk`) and rewrite the destination
(oracle `writeOk`).  On write success the source is removed best-effort;
on write failure the destination — already possibly truncated or
partially overwritten by the `O_TRUNC` write, per the oracle
`writeLeftover` — is removed best-effort, with the removal error
discarded (oracle `removeOk`).  `removed` records the paths passed to
`os.Remove`, in order. -/
def copyFile (fs : FS) (oldpath newpath : String)
    (renameOk readOk writeOk : Bool) (writeLeftover : Option String)
    (removeOk : Bool) : CopyOut :=
  match fsGet fs oldpath with
  | none => ⟨fs, false, []⟩
  | some d =>
    if renameOk then ⟨fsSet (fsDel fs oldpath) newpath d, true, []⟩
    else if readOk = false then ⟨fs, false, []⟩
    else if writeOk then
      ⟨osRemoveBestEffort (fsWriteFile fs newpath d.content) oldpath removeOk,
        true, [oldpath]⟩
    else
      ⟨osRemoveBestEffort (fsWriteFileFailed fs newpath writeLeftover) newpath removeOk,
        false, [newpath]⟩

/-- The distinct diagnostic messages the program prints. -/
inductive Msg
  | groupRequiredError
  | secretsMissingError
  | decryptError
  | tmpOpenError
  | cleanupError
  | editError
  | encryptError
  | installError
  | missingCommandError
  | childError
deriving DecidableEq

structure CleanupOut where
  fs : FS
  msgs : List Msg
  removed : List String
deriving DecidableEq

/-- Models the `cleanup` closure of `edit` (src/unseal.go:164-170): close
the handle and remove the plaintext path; a removal failure prints the
leak warning but is otherwise ignored. -/
def cleanup (fs : FS) (tmp : String) : CleanupOut :=
  match osRemove fs tmp with
  | (fs1, true) => ⟨fs1, [], [tmp]⟩
  | (fs1, false) => ⟨fs1, [Msg.cleanupError], [tmp]⟩

inductive EditResult
  | ok
  | groupRequired
  | decryptFailed
  | tmpFileError
  | editFailed
  | encryptFailed
  | installFailed
deriving DecidableEq

/-- Oracle for one run of `edit`: outcomes of the external gpg calls, the
temp-file syscalls, the editor, and the install steps. -/
structure EditOracle where
  decryptOut : Option String
  createOk : Bool
  chmodOk : Bool
  writeOk : Bool
  initMode : Nat
  editorOk : Bool
  editorOut : String
  encryptOk : Bool
  cipher : String
  cipherMode : Nat
  renameOk : Bool
  readOk : Bool
  installWriteOk : Bool
  installWriteLeftover : Option String
  installRemoveOk : Bool

structure EditOut where
  fs : FS
  result : EditResult
  msgs : List Msg
  removed : List String
deriving DecidableEq

/-- Models `edit` (src/unseal.go:151-193), following the Go control flow
exactly: decrypt existing contents, write the ephemeral plaintext file,
run the editor (a failure exits WITHOUT running `cleanup`), encrypt to
`<tmp>.gpg` and run `cleanup` unconditionally, then install via
`copyFile`; an install failure prints the install error and runs
`cleanup` (on the plaintext path) a second time.  `msgs` collects the
printed diagnostics in order and `removed` the `os.Remove` attempts. -/
def edit (fs0 : FS) (home group tmpDir : String) (buf : List Nat) (o : EditOracle) : EditOut :=
  if group = "" then ⟨fs0, EditResult.groupRequired, [Msg.groupRequiredError], []⟩
  else
    let store := secretsPath home group
    match (if fileExists fs0 store then decryptFile fs0 store o.decryptOut else some "") with
    | none => ⟨fs0, EditResult.decryptFailed, [Msg.decryptError], []⟩
    | some contents =>
      let w := writeTmpFile fs0 tmpDir buf contents o.createOk o.chmodOk o.writeOk o.initMode
      if w.ok = false then ⟨w.fs, EditResult.tmpFileError, [Msg.tmpOpenError], []⟩
      else
        let tmp := w.path
        let tmpEnc := tmp ++ ".gpg"
        if o.editorOk = false then
          ⟨w.fs, EditResult.editFailed, [Msg.editError], []⟩
        else
          let fs2 := fsSetContent w.fs tmp o.editorOut
          let fs3 := if o.encryptOk then fsSet fs2 tmpEnc ⟨o.cipher, o.cipherMode⟩ else fs2
          let c1 := cleanup fs3 tmp
          if o.encryptOk = false then
            ⟨c1.fs, EditResult.encryptFailed, c1.msgs ++ [Msg.encryptError], c1.removed⟩
          else
            let cp := copyFile c1.fs tmpEnc store o.renameOk o.readOk o.installWriteOk
              o.installWriteLeftover o.installRemoveOk
            if cp.ok then ⟨cp.fs, EditResult.ok, c1.msgs, c1.removed ++ cp.removed⟩
            else
              let c2 := cleanup cp.fs tmp
              ⟨c2.fs, EditResult.installFailed,
                c1.msgs ++ [Msg.installError] ++ c2.msgs,
                c1.removed ++ cp.removed ++ c2.removed⟩

inductive WrapResult
  | ok
  | missingCommand
  | groupRequired
  | storeNotFound
  | decryptFailed
deriving DecidableEq

structure WrapOut where
  result : WrapResult
  msgs : List Msg
  env : List (GoStr × GoStr)
deriving DecidableEq

/-- Models `insertEnvironment` (src/unseal.go:264-268): each parsed
variable is set into the process environment, overwriting. -/
def insertEnvironment (env : List (GoStr × GoStr)) (vars : List (GoStr × GoStr)) :
    List (GoStr × GoStr) :=
  vars.foldl insertPair env

/-- Models `wrap` (src/unseal.go:195-209): an empty argument vector aborts
first; then `ensureSecrets` runs; then the store is decrypted, parsed and
injected into the environment; finally the child runs with inherited
stdio — a spawn failure or non-zero exit (oracle `childOk = false`) only
prints a message, `wrap` itself still returns normally. -/
def wrap (execargs : List String) (group home : String) (fs : FS)
    (gpgOut : Option String) (baseEnv : List (GoStr × GoStr)) (childOk : Bool) : WrapOut :=
  if execargs = [] then ⟨WrapResult.missingCommand, [Msg.missingCommandError], baseEnv⟩
  else
    match ensureSecrets group home fs with
    | EnsureResult.groupRequired => ⟨WrapResult.groupRequired, [Msg.groupRequiredError], baseEnv⟩
    | EnsureResult.storeNotFound => ⟨WrapResult.storeNotFound, [Msg.secretsMissingError], baseEnv⟩
    | EnsureResult.ok =>
      match decryptFile fs (secretsPath home group) gpgOut with
      | none => ⟨WrapResult.decryptFailed, [Msg.decryptError], baseEnv⟩
      | some plain =>
        let env := insertEnvironment baseEnv (parseEnvironment plain.data)
        if childOk then ⟨WrapResult.ok, [], env⟩
        else ⟨WrapResult.ok, [Msg.childError], env⟩

/-! ### Concrete scenarios used to settle individual claims -/

/-- A run of `edit` in which everything up to the editor succeeds and the
editor exits non-zero. -/
def editorFailOracle : EditOracle :=
  ⟨some "", true, true, true, 0o644, false, "", true, "", 0o644, true, true, true, none, true⟩

/-- A filesystem holding only the group `g` store for home `h`, with
content `OLD` and owner-only mode. -/
def storeFS : FS := [(secretsPath "h" "g", ⟨"OLD", 0o600⟩)]

/-- A run of `edit` in which decrypt, temp file, editor and encryption all
succeed, and the install step fails: the rename fails and the fallback
read fails too. -/
def installFailOracle : EditOracle :=
  ⟨some "OLDPLAIN", true, true, true, 0o644, true, "NEW", true, "CIPHER", 0o644,
    false, false, true, none, true⟩

/-- A filesystem holding the store (content `OLD`) and an ephemeral
ciphertext file ready to be installed (content `NEW`). -/
def copyFS : FS :=
  [(secretsPath "h" "g", ⟨"OLD", 0o600⟩), ("/tmp/unseal.00000000.gpg", ⟨"NEW", 0o644⟩)]

/-- A filesystem in which an ephemeral plaintext file named
`/tmp/unseal.00000000` is already live, holding a secret. -/
def liveTmpFS : FS := [("/tmp/unseal.00000000", ⟨"SECRET", 0o600⟩)]

/-! ### Association-map lemmas -/

theorem lookup_mapInsert {α β : Type} [DecidableEq α] (m : List (α × β)) (k' k : α) (v : β) :
    lookupKey (mapInsert m k' v) k = if k' = k then some v else lookupKey m k := by
  induction m with
  | nil => by_cases h : k' = k <;> simp [mapInsert, lookupKey, h]
  | cons e m ih =>
    by_cases h1 : e.1 = k'
    · rw [mapInsert, if_pos h1]
      by_cases h2 : k' = k
      · simp [lookupKey, h2]
      · have h3 : ¬ e.1 = k := by rw [h1]; exact h2
        simp [lookupKey, h2, h3]
    · rw [mapInsert, if_neg h1]
      by_cases h2 : e.1 = k
      · have h3 : ¬ k' = k := fun hh => h1 (h2.trans hh.symm)
        simp [lookupKey, h2, h3]
      · simp [lookupKey, h2, ih]

theorem lookup_eraseKey_self {α β : Type} [DecidableEq α] (m : List (α × β)) (k : α) :
    lookupKey (eraseKey m k) k = none := by
  induction m with
  | nil => rfl
  | cons e m ih =>
    by_cases h : e.1 = k <;> simp [eraseKey, lookupKey, h, ih]

theorem countKey_mapInsert_self_le {α β : Type} [DecidableEq α] (m : List (α × β)) (k : α)
    (v : β) (hm : countKey m k ≤ 1) : countKey (mapInsert m k v) k ≤ 1 := by
  induction m with
  | nil => simp [mapInsert, countKey]
  | cons e m ih =>
    by_cases h : e.1 = k
    · rw [mapInsert, if_pos h]
      simp only [countKey, if_pos h] at hm
      simpa [countKey] using hm
    · rw [mapInsert, if_neg h]
      simp only [countKey, if_neg h] at hm ⊢
      have := ih (by omega)
      omega

theorem countKey_mapInsert_ne {α β : Type} [DecidableEq α] (m : List (α × β)) {k k' : α}
    (v : β) (h : k ≠ k') : countKey (mapInsert m k' v) k = countKey m k := by
  induction m with
  | nil =>
    have h2 : ¬ k' = k := fun hh => h hh.symm
    simp [mapInsert, countKey, h2]
  | cons e m ih =>
    by_cases h1 : e.1 = k'
    · have h2 : ¬ k' = k := fun hh => h hh.symm
      have h3 : ¬ e.1 = k := by rw [h1]; exact h2
      rw [mapInsert, if_pos h1]
      simp [countKey, h2, h3]
    · rw [mapInsert, if_neg h1]
      simp [countKey, ih]

theorem countKey_foldl_le_one {α β : Type} [DecidableEq α] (l : List (α × β))
    (m : List (α × β)) (hm : ∀ j, countKey m j ≤ 1) (k : α) :
    countKey (l.foldl insertPair m) k ≤ 1 := by
  induction l generalizing m with
  | nil => exact hm k
  | cons e l ih =>
    rw [List.foldl_cons]
    apply ih
    intro j
    by_cases h : j = e.1
    · subst h
      exact countKey_mapInsert_self_le m e.1 e.2 (hm e.1)
    · show countKey (mapInsert m e.1 e.2) j ≤ 1
      rw [countKey_mapInsert_ne m e.2 h]
      exact hm j

theorem lookup_some_count_pos {α β : Type} [DecidableEq α] (m : List (α × β)) (k : α) (v : β)
    (h : lookupKey m k = some v) : 1 ≤ countKey m k := by
  induction m with
  | nil => simp [lookupKey] at h
  | cons e m ih =>
    by_cases h1 : e.1 = k
    · simp [countKey, h1]
    · rw [lookupKey, if_neg h1] at h
      have := ih h
      simp only [countKey, if_neg h1]
      omega

theorem lastVal_none_count_zero {α β : Type} [DecidableEq α] (l : List (α × β)) (k : α)
    (h : lastVal l k = none) : countKey l k = 0 := by
  induction l with
  | nil => rfl
  | cons e l ih =>
    cases hl : lastVal l k with
    | some v => simp [lastVal, hl] at h
    | none =>
      simp only [lastVal, hl] at h
      by_cases h1 : e.1 = k
      · rw [if_pos h1] at h
        exact absurd h (by simp)
      · simp only [countKey, if_neg h1, ih hl]

theorem lastVal_isSome_of_count {α β : Type} [DecidableEq α] (l : List (α × β)) (k : α)
    (h : 1 ≤ countKey l k) : ∃ v, lastVal l k = some v := by
  cases hl : lastVal l k with
  | some v => exact ⟨v, rfl⟩
  | none =>
    have := lastVal_none_count_zero l k hl
    omega

theorem lastVal_mem {α β : Type} [DecidableEq α] (l : List (α × β)) (k : α) (v : β)
    (h : lastVal l k = some v) : (k, v) ∈ l := by
  induction l with
  | nil => simp [lastVal] at h
  | cons e l ih =>
    cases hl : lastVal l k with
    | some w =>
      simp only [lastVal, hl] at h
      cases h
      exact List.mem_cons_of_mem e (ih hl)
    | none =>
      simp only [lastVal, hl] at h
      by_cases h1 : e.1 = k
      · rw [if_pos h1] at h
        have he2 : e.2 = v := by injection h
        have heq : e = (k, v) := by
          obtain ⟨a, b⟩ := e
          simp only at h1 he2
          rw [h1, he2]
        rw [← heq]
        exact List.mem_cons_self e l
      · rw [if_neg h1] at h
        exact absurd h (by simp)

theorem lookup_foldl_insert {α β : Type} [DecidableEq α] (l : List (α × β))
    (m : List (α × β)) (k : α) :
    lookupKey (l.foldl insertPair m) k = orO (lastVal l k) (lookupKey m k) := by
  induction l generalizing m with
  | nil => simp [lastVal, orO]
  | cons e l ih =>
    rw [List.foldl_cons, ih]
    show orO (lastVal l k) (lookupKey (mapInsert m e.1 e.2) k) = _
    rw [lookup_mapInsert]
    cases hl : lastVal l k with
    | some v => simp [lastVal, hl, orO]
    | none =>
      simp only [lastVal, hl, orO]
      by_cases h : e.1 = k <;> simp [h, orO]

/-! ### Split and parse lemmas -/

theorem replaceCRLF_no_cr (v : GoStr) (h : '\r' ∉ v) : replaceCRLF v = v := by
  induction v with
  | nil => rfl
  | cons c rest ih =>
    have hc : c ≠ '\r' := by
      intro hh
      exact h (by rw [hh]; exact List.mem_cons_self _ _)
    have hr : '\r' ∉ rest := fun hh => h (List.mem_cons_of_mem c hh)
    cases rest with
    | nil => rfl
    | cons d rest2 =>
      have hcd : ¬(c = '\r' ∧ d = '\n') := fun hh => hc hh.1
      rw [replaceCRLF, if_neg hcd, ih hr]

theorem splitNewline_ne_nil (v : GoStr) : splitNewline v ≠ [] := by
  induction v with
  | nil => simp [splitNewline]
  | cons c rest ih =>
    by_cases h : c = '\n'
    · simp [splitNewline, h]
    · simp only [splitNewline, if_neg h]
      cases hs : splitNewline rest <;> simp

theorem splitNewline_no_nl (v : GoStr) (h : '\n' ∉ v) : splitNewline v = [v] := by
  induction v with
  | nil => rfl
  | cons c rest ih =>
    have hc : c ≠ '\n' := by
      intro hh
      exact h (by rw [hh]; exact List.mem_cons_self _ _)
    have hr : '\n' ∉ rest := fun hh => h (List.mem_cons_of_mem c hh)
    rw [splitNewline, if_neg hc, ih hr]

theorem splitFirstEq_none (v : GoStr) (h : '=' ∉ v) : splitFirstEq v = none := by
  induction v with
  | nil => rfl
  | cons c rest ih =>
    have hc : c ≠ '=' := by
      intro hh
      exact h (by rw [hh]; exact List.mem_cons_self _ _)
    have hr : '=' ∉ rest := fun hh => h (List.mem_cons_of_mem c hh)
    rw [splitFirstEq, if_neg hc, ih hr]

theorem splitFirstEq_some (v : GoStr) : ∀ k w : GoStr, splitFirstEq v = some (k, w) →
    v = k ++ '=' :: w ∧ '=' ∉ k := by
  induction v with
  | nil => intro k w h; exact absurd h (by simp [splitFirstEq])
  | cons c rest ih =>
    intro k w h
    by_cases hc : c = '='
    · rw [splitFirstEq, if_pos hc] at h
      injection h with h2
      injection h2 with hk hw
      subst hc; subst hk; subst hw
      exact ⟨rfl, by simp⟩
    · rw [splitFirstEq, if_neg hc] at h
      cases hs : splitFirstEq rest with
      | none => rw [hs] at h; exact absurd h (by simp)
      | some kv =>
        rw [hs] at h
        injection h with h2
        injection h2 with hk hw
        obtain ⟨hrest, hkeq⟩ := ih kv.1 kv.2 hs
        subst hk; subst hw
        constructor
        · rw [List.cons_append, hrest]
        · intro hmem
          rcases List.mem_cons.mp hmem with h3 | h3
          · exact hc h3.symm
          · exact hkeq h3

theorem parseStep_eq (m : List (GoStr × GoStr)) (v : GoStr) :
    parseStep m v =
      match lineEntry v with
      | some kv => mapInsert m kv.1 kv.2
      | none => m := by
  unfold parseStep lineEntry
  by_cases h : v = []
  · simp [h]
  · simp only [if_neg h]

theorem foldl_parseStep_filterMap (lines : List GoStr) (m : List (GoStr × GoStr)) :
    lines.foldl parseStep m = (lines.filterMap lineEntry).foldl insertPair m := by
  induction lines generalizing m with
  | nil => rfl
  | cons v ls ih =>
    rw [List.foldl_cons, ih, List.filterMap_cons, parseStep_eq]
    cases h : lineEntry v with
    | none => simp
    | some kv => simp [insertPair]

theorem parseEnvironment_eq_foldl (raw : GoStr) :
    parseEnvironment raw = (envEntries raw).foldl insertPair [] := by
  unfold parseEnvironment envEntries
  exact foldl_parseStep_filterMap _ _

theorem lookup_parseEnvironment (raw : GoStr) (k : GoStr) :
    lookupKey (parseEnvironment raw) k = lastVal (envEntries raw) k := by
  rw [parseEnvironment_eq_foldl, lookup_foldl_insert]
  cases lastVal (envEntries raw) k <;> simp [orO, lookupKey]

/-! ### Filesystem lemmas -/

theorem fsGet_fsSet_self (fs : FS) (p : String) (d : FileData) :
    fsGet (fsSet fs p d) p = some d := by
  unfold fsGet fsSet
  rw [lookup_mapInsert]
  simp

theorem fsGet_osCreate_self (fs : FS) (p : String) (im : Nat) :
    ∃ m0, fsGet (osCreate fs p im) p = some ⟨"", m0⟩ := by
  unfold osCreate
  cases h : fsGet fs p with
  | some d => exact ⟨d.fmode, fsGet_fsSet_self _ _ _⟩
  | none => exact ⟨im, fsGet_fsSet_self _ _ _⟩

theorem fsGet_fsSetMode_of_some (fs : FS) (p : String) (d : FileData) (m : Nat)
    (h : fsGet fs p = some d) : fsGet (fsSetMode fs p m) p = some ⟨d.content, m⟩ := by
  unfold fsSetMode
  rw [h]
  exact fsGet_fsSet_self _ _ _

theorem fsGet_fsSetContent_of_some (fs : FS) (p : String) (d : FileData) (c : String)
    (h : fsGet fs p = some d) : fsGet (fsSetContent fs p c) p = some ⟨c, d.fmode⟩ := by
  unfold fsSetContent
  rw [h]
  exact fsGet_fsSet_self _ _ _

theorem hexEncode_length (buf : List Nat) : (hexEncode buf).length = 2 * buf.length := by
  induction buf with
  | nil => rfl
  | cons b rest ih =>
    simp [hexEncode, hexByte, ih]
    omega

/-! ### Claims -/

/-- C1 (code bug): in a run of `edit` where decrypt and the temp file
succeed and the editor exits non-zero, the operation aborts with the edit
failure, yet the ephemeral plaintext file still exists on disk and no
removal of it was ever attempted — the editor-failure path of the Go code
(src/unseal.go:174-178) exits without running `cleanup`, contradicting
the claim that the plaintext file is always gone when control returns. -/
theorem edit_editorFailure_plaintextRemains :
    (edit [] "h" "g" "/tmp" [0, 0, 0, 0] editorFailOracle).result = EditResult.editFailed ∧
    fileExists (edit [] "h" "g" "/tmp" [0, 0, 0, 0] editorFailOracle).fs
      (tmpFileName "/tmp" [0, 0, 0, 0]) = true ∧
    (edit [] "h" "g" "/tmp" [0, 0, 0, 0] editorFailOracle).removed = [] := by
  decide

/-- C2 counterexample: the store is present with content `OLD`; the rename
fails, the fallback read succeeds and the fallback write fails.
`copyFile` reports failure, but the store file at the destination path is
not byte-for-byte unchanged.  Two concrete failing runs are evaluated:
one where the `O_TRUNC` write truncated the file before failing and the
best-effort `os.Remove(newpath)` (src/unseal.go:256) then deleted it, and
one where the failing write left the partial bytes `NE` behind and the
best-effort removal failed (its error is discarded), so the partial
content remains at the destination. -/
theorem copyFile_writeFailure_destroysOriginal :
    fsGet copyFS (secretsPath "h" "g") = some ⟨"OLD", 0o600⟩ ∧
    (copyFile copyFS "/tmp/unseal.00000000.gpg" (secretsPath "h" "g")
      false true false (some "") true).ok = false ∧
    fsGet (copyFile copyFS "/tmp/unseal.00000000.gpg" (secretsPath "h" "g")
      false true false (some "") true).fs (secretsPath "h" "g") = none ∧
    (copyFile copyFS "/tmp/unseal.00000000.gpg" (secretsPath "h" "g")
      false true false (some "NE") false).ok = false ∧
    fsGet (copyFile copyFS "/tmp/unseal.00000000.gpg" (secretsPath "h" "g")
      false true false (some "NE") false).fs (secretsPath "h" "g") =
      some ⟨"NE", 0o600⟩ := by
  decide

/-- C2 amended: if the install step fails with the rename failing and the
fallback read also failing, the whole filesystem — in particular the
original store file at the destination path — is byte-for-byte
unchanged.  If instead the fallback write fails, the original is not
preserved: the `O_TRUNC` open may have truncated or partially overwritten
it, and the subsequent best-effort delete (whose error is discarded) may
remove the destination or fail and leave the leftover bytes in place. -/
theorem copyFile_readFailure_dest_unchanged (fs : FS) (oldpath newpath : String)
    (w : Bool) (wfs : Option String) (rm : Bool) :
    (copyFile fs oldpath newpath false false w wfs rm).ok = false ∧
    (copyFile fs oldpath newpath false false w wfs rm).fs = fs := by
  cases hg : fsGet fs oldpath with
  | none => exact ⟨by simp [copyFile, hg], by simp [copyFile, hg]⟩
  | some d => exact ⟨by simp [copyFile, hg], by simp [copyFile, hg]⟩

/-- C3: for a non-empty group whose store file does not exist,
`ensureSecrets` reports the store-not-found failure (telling the caller
to create the store with the edit command), while `decryptFile` on the
same path returns the empty string instead of an error, whatever the gpg
oracle would answer. -/
theorem ensureSecrets_absent_and_decrypt_empty (group home : String) (fs : FS)
    (gpgOut : Option String) (hg : group ≠ "")
    (habs : fileExists fs (secretsPath home group) = false) :
    ensureSecrets group home fs = EnsureResult.storeNotFound ∧
    decryptFile fs (secretsPath home group) gpgOut = some "" := by
  constructor
  · unfold ensureSecrets
    simp [hg, habs]
  · unfold decryptFile
    simp [habs]

/-- C3 witness: group `g`, empty filesystem. -/
theorem ensureSecrets_absent_and_decrypt_empty_witness :
    ensureSecrets "g" "h" [] = EnsureResult.storeNotFound ∧
    decryptFile [] (secretsPath "h" "g") none = some "" :=
  ensureSecrets_absent_and_decrypt_empty "g" "h" [] none (by decide) (by decide)

/-- C4: parsing the raw text `A=1\r\n\r\nB=2\r\n` yields exactly the
mapping `{A ↦ 1, B ↦ 2}`: CRLF is normalized, the text is split on
newlines, the blank line is skipped, and each line splits on its first
`=`. -/
theorem parseEnvironment_scenarioC :
    parseEnvironment "A=1\r\n\r\nB=2\r\n".data =
      [("A".data, "1".data), ("B".data, "2".data)] := by
  decide

/-- C5: a non-blank line without `=` contributes nothing to the parse (no
entry, no error); `X=a=b` parses to the single entry `X ↦ a=b`, the value
keeping its later `=` characters; a line of the shape `k=w` is used
verbatim — whenever the split succeeds the line is exactly the key, one
`=`, and the value, with no trimming (witnessed also by the concrete
` X = a ` line keeping all its spaces). -/
theorem parseEnvironment_line_behavior :
    (∀ v : GoStr, v ≠ [] → '\n' ∉ v → '\r' ∉ v → '=' ∉ v → parseEnvironment v = []) ∧
    parseEnvironment "X=a=b".data = [("X".data, "a=b".data)] ∧
    parseEnvironment " X = a ".data = [(" X ".data, " a ".data)] ∧
    (∀ v k w : GoStr, splitFirstEq v = some (k, w) → v = k ++ '=' :: w) := by
  refine ⟨?_, by decide, by decide, ?_⟩
  · intro v hne hnl hcr heq
    unfold parseEnvironment
    rw [replaceCRLF_no_cr v hcr, splitNewline_no_nl v hnl]
    simp [parseStep, hne, splitFirstEq_none v heq]
  · intro v k w h
    exact (splitFirstEq_some v k w h).1

/-- C5 witness: the no-`=` line `ABC` is ignored, and `X=a=b` decomposes
verbatim around its first `=`. -/
theorem parseEnvironment_line_behavior_witness :
    parseEnvironment "ABC".data = [] ∧
    "X=a=b".data = "X".data ++ '=' :: "a=b".data :=
  ⟨parseEnvironment_line_behavior.1 "ABC".data (by decide) (by decide) (by decide)
      (by decide),
    parseEnvironment_line_behavior.2.2.2 "X=a=b".data "X".data "a=b".data (by decide)⟩

/-- C6: whenever the raw input contains two or more lines with the same
key, the parsed map holds that key exactly once, bound to the value of
the last such line in line order. -/
theorem parseEnvironment_duplicate_last_wins (raw : GoStr) (k : GoStr)
    (h : 2 ≤ countKey (envEntries raw) k) :
    countKey (parseEnvironment raw) k = 1 ∧
    lookupKey (parseEnvironment raw) k = lastVal (envEntries raw) k := by
  have hlook := lookup_parseEnvironment raw k
  obtain ⟨v, hv⟩ := lastVal_isSome_of_count (envEntries raw) k (by omega)
  have h1 : countKey (parseEnvironment raw) k ≤ 1 := by
    rw [parseEnvironment_eq_foldl]
    refine countKey_foldl_le_one _ _ (fun j => ?_) k
    show countKey ([] : List (GoStr × GoStr)) j ≤ 1
    simp [countKey]
  have h2 : 1 ≤ countKey (parseEnvironment raw) k := by
    apply lookup_some_count_pos _ _ v
    rw [hlook, hv]
  exact ⟨by omega, hlook⟩

/-- C6 witness: `A=1\nA=2` has two `A` lines; the parse holds `A` once,
with the last value `2`. -/
theorem parseEnvironment_duplicate_last_wins_witness :
    2 ≤ countKey (envEntries "A=1\nA=2".data) "A".data ∧
    (countKey (parseEnvironment "A=1\nA=2".data) "A".data = 1 ∧
      lookupKey (parseEnvironment "A=1\nA=2".data) "A".data =
        lastVal (envEntries "A=1\nA=2".data) "A".data) :=
  ⟨by decide, parseEnvironment_duplicate_last_wins "A=1\nA=2".data "A".data (by decide)⟩

/-- C7: `wrap` fails with the missing-command error when the argument
vector is empty (for either child oracle); otherwise, once the store
exists and decrypts, a child spawn failure or non-zero exit only adds a
standard-error message — `wrap`'s own result is `ok` with and without the
child failure. -/
theorem wrap_missingCommand_and_childFailure (args : List String) (group home : String)
    (fs : FS) (gpgOut : Option String) (baseEnv : List (GoStr × GoStr)) (plain : String)
    (hargs : args ≠ []) (hg : group ≠ "")
    (hex1 : fileExists fs (secretsPath home group) = true)
    (hdec : decryptFile fs (secretsPath home group) gpgOut = some plain) :
    (wrap [] group home fs gpgOut baseEnv true).result = WrapResult.missingCommand ∧
    (wrap [] group home fs gpgOut baseEnv false).result = WrapResult.missingCommand ∧
    (wrap args group home fs gpgOut baseEnv true).result = WrapResult.ok ∧
    (wrap args group home fs gpgOut baseEnv false).result = WrapResult.ok ∧
    (wrap args group home fs gpgOut baseEnv true).msgs = [] ∧
    (wrap args group home fs gpgOut baseEnv false).msgs = [Msg.childError] := by
  have he : ensureSecrets group home fs = EnsureResult.ok := by
    unfold ensureSecrets
    simp [hg, hex1]
  refine ⟨by simp [wrap], by simp [wrap], ?_, ?_, ?_, ?_⟩ <;>
    simp [wrap, hargs, he, hdec]

/-- C7 witness: concrete group `g`, store present, decrypt yielding
`A=1`, child command `env`. -/
theorem wrap_missingCommand_and_childFailure_witness :
    (wrap [] "g" "h" storeFS (some "A=1") [] true).result = WrapResult.missingCommand ∧
    (wrap [] "g" "h" storeFS (some "A=1") [] false).result = WrapResult.missingCommand ∧
    (wrap ["env"] "g" "h" storeFS (some "A=1") [] true).result = WrapResult.ok ∧
    (wrap ["env"] "g" "h" storeFS (some "A=1") [] false).result = WrapResult.ok ∧
    (wrap ["env"] "g" "h" storeFS (some "A=1") [] true).msgs = [] ∧
    (wrap ["env"] "g" "h" storeFS (some "A=1") [] false).msgs = [Msg.childError] :=
  wrap_missingCommand_and_childFailure ["env"] "g" "h" storeFS (some "A=1") [] "A=1"
    (by decide) (by decide) (by decide) (by decide)

/-- C8 (code bug): decrypt, temp file, editor and encryption succeed and
the install fails (rename failure, fallback read failure).  The run ends
in the install failure with the install error printed first (not masked),
and the store file is untouched; but the cleanup that is re-attempted
targets the already-deleted plaintext path — it fails with the cleanup
error — while the ephemeral ciphertext file `<tmp>.gpg` is never passed
to a removal and remains on disk, contradicting the claim that its
cleanup is attempted. -/
theorem edit_installFailure_ciphertextRemains :
    (edit storeFS "h" "g" "/tmp" [0, 0, 0, 0] installFailOracle).result =
      EditResult.installFailed ∧
    fileExists (edit storeFS "h" "g" "/tmp" [0, 0, 0, 0] installFailOracle).fs
      (tmpFileName "/tmp" [0, 0, 0, 0] ++ ".gpg") = true ∧
    (tmpFileName "/tmp" [0, 0, 0, 0] ++ ".gpg") ∉
      (edit storeFS "h" "g" "/tmp" [0, 0, 0, 0] installFailOracle).removed ∧
    (edit storeFS "h" "g" "/tmp" [0, 0, 0, 0] installFailOracle).msgs =
      [Msg.installError, Msg.cleanupError] ∧
    fsGet (edit storeFS "h" "g" "/tmp" [0, 0, 0, 0] installFailOracle).fs
      (secretsPath "h" "g") = some ⟨"OLD", 0o600⟩ := by
  decide

/-- C9 counterexample: an ephemeral plaintext file named
`/tmp/unseal.00000000` is already live; a `writeTmpFile` call whose four
random bytes are all zero succeeds and returns the very same name,
silently truncating the live file — the new ephemeral file's name is not
distinct from that of a concurrently live one. -/
theorem writeTmpFile_name_collision :
    fileExists liveTmpFS "/tmp/unseal.00000000" = true ∧
    (writeTmpFile liveTmpFS "/tmp" [0, 0, 0, 0] "" true true true 0o644).ok = true ∧
    (writeTmpFile liveTmpFS "/tmp" [0, 0, 0, 0] "" true true true 0o644).path =
      "/tmp/unseal.00000000" ∧
    fsGet (writeTmpFile liveTmpFS "/tmp" [0, 0, 0, 0] "" true true true 0o644).fs
      "/tmp/unseal.00000000" = some ⟨"", 0o600⟩ := by
  decide

/-- C9 amended: when `writeTmpFile` returns successfully the file at its
path holds the requested contents with owner-only mode 0600, and the path
is `TempDir/unseal.` followed by the hex encoding of the four random
bytes (eight characters for a four-byte read); the name is only
probabilistically fresh — creation truncates an existing file of the
same name rather than failing, so distinctness from other live ephemeral
files is not guaranteed. -/
theorem writeTmpFile_mode_and_name (fs : FS) (tmpDir : String) (buf : List Nat)
    (contents : String) (im : Nat) (hbuf : buf.length = 4) :
    (writeTmpFile fs tmpDir buf contents true true true im).ok = true ∧
    (writeTmpFile fs tmpDir buf contents true true true im).path =
      tmpDir ++ "/unseal." ++ randChars buf ∧
    fsGet (writeTmpFile fs tmpDir buf contents true true true im).fs
      (tmpFileName tmpDir buf) = some ⟨contents, ownerOnlyMode⟩ ∧
    (hexEncode buf).length = 8 := by
  obtain ⟨m0, h1⟩ := fsGet_osCreate_self fs (tmpFileName tmpDir buf) im
  have h2 := fsGet_fsSetMode_of_some _ _ _ ownerOnlyMode h1
  have h3 := fsGet_fsSetContent_of_some _ _ _ contents h2
  refine ⟨by simp [writeTmpFile], by simp [writeTmpFile, tmpFileName], ?_, ?_⟩
  · simpa [writeTmpFile] using h3
  · rw [hexEncode_length, hbuf]

/-- C9 witness: four zero bytes on the empty filesystem. -/
theorem writeTmpFile_mode_and_name_witness :
    (writeTmpFile [] "/tmp" [0, 0, 0, 0] "TOKEN=abc123" true true true 0o644).ok = true ∧
    (writeTmpFile [] "/tmp" [0, 0, 0, 0] "TOKEN=abc123" true true true 0o644).path =
      "/tmp" ++ "/unseal." ++ randChars [0, 0, 0, 0] ∧
    fsGet (writeTmpFile [] "/tmp" [0, 0, 0, 0] "TOKEN=abc123" true true true 0o644).fs
      (tmpFileName "/tmp" [0, 0, 0, 0]) = some ⟨"TOKEN=abc123", ownerOnlyMode⟩ ∧
    (hexEncode [0, 0, 0, 0]).length = 8 :=
  writeTmpFile_mode_and_name [] "/tmp" [0, 0, 0, 0] "TOKEN=abc123" 0o644 (by decide)

/-- C10: every key in the parsed map is free of `=` (the key is what
stands before the first `=` of its line), and the line `=v` is not
ignored: it produces the entry with the empty key and value `v`. -/
theorem parseEnvironment_keys_no_eq :
    (∀ raw k v : GoStr, lookupKey (parseEnvironment raw) k = some v → '=' ∉ k) ∧
    parseEnvironment "=v".data = [([], "v".data)] := by
  refine ⟨?_, by decide⟩
  intro raw k v h
  rw [lookup_parseEnvironment] at h
  have hmem := lastVal_mem _ _ _ h
  rw [envEntries, List.mem_filterMap] at hmem
  obtain ⟨line, _, hline⟩ := hmem
  unfold lineEntry at hline
  by_cases hb : line = []
  · rw [if_pos hb] at hline
    exact absurd hline (by simp)
  · rw [if_neg hb] at hline
    exact (splitFirstEq_some line k v hline).2

/-- C10 witness: the key `A` of the parse of `A=1` contains no `=`. -/
theorem parseEnvironment_keys_no_eq_witness : '=' ∉ "A".data :=
  parseEnvironment_keys_no_eq.1 "A=1".data "A".data "1".data (by decide)

end Unseal
